import Mathlib

/-!
Verification development for the streaming translation service in `src/main.py`.

The development shallowly embeds the core of the service:

* `check_rate_limit` — the per-client sliding-window rate limiter (lines 59–75);
* `stream_api1` — the producer that streams from the generation API, segments
  the token deltas into sentence units, and feeds the hand-off queue
  (lines 78–152);
* `translate_text` — the per-unit translator call, re-streamed as events
  (lines 155–204);
* `real_time_translation_pipeline` — the consumer draining the queue and
  interleaving original/translation events (lines 207–245);
* `translate_stream` — the admission logic of the HTTP handler (lines 248–282).

An upstream HTTP streaming call is abstracted as an `UpstreamResponse`: a
status code, the sequence of parsed stream lines received, and an optional
connection failure (timeout or exception) interrupting the stream.  Strings
stay strings; Python's `str.strip()` is modelled by `strip` and
`punct in content` by `hasBoundary`, both computable over the character list.
-/

namespace Main

/-- One line of an upstream event stream, as the code classifies it:
a well-parsed `data:` line with its extracted text delta (possibly empty),
the `data: [DONE]` terminator line, a `data:` line whose JSON fails to parse
(`json.JSONDecodeError`, silently skipped), or a line without the `data: `
prefix (skipped). -/
inductive Frame where
  | data (content : String)
  | doneMark
  | malformed
  | nonData
deriving DecidableEq

/-- The observed behaviour of one upstream streaming HTTP call: its status
code, the stream lines delivered, and `failure = some msg` when a timeout or
exception interrupts the call after those lines. -/
structure UpstreamResponse where
  status : Nat
  frames : List Frame
  failure : Option String
deriving DecidableEq

/-- An item placed on the hand-off `asyncio.Queue` by the producer:
`{'type': 'original', ...}`, `{'type': 'translate', ...}`, `{'error': ...}`,
or the end-of-producer sentinel `None`. -/
inductive QueueItem where
  | original (text : String)
  | translate (text : String) (is_final : Bool)
  | error (message : String)
  | sentinel
deriving DecidableEq

/-- A wire event yielded to the client (the JSON payload of one SSE frame). -/
inductive OutEvent where
  | original (text : String)
  | translation (text : String)
  | separator
  | done
  | error (message : String)
deriving DecidableEq

/-- `MAX_REQUESTS_PER_MINUTE = 60` (line 23). -/
def MAX_REQUESTS_PER_MINUTE : Nat := 60

/-- Python `any(punct in content for punct in ['.', '!', '?', '\n'])`
(line 132): the delta contains a boundary character. -/
def hasBoundary (s : String) : Bool :=
  s.data.any (fun c => c = '.' || c = '!' || c = '?' || c = '\n')

/-- Python `str.strip()`: remove leading and trailing whitespace. -/
def strip (s : String) : String :=
  ⟨((s.data.dropWhile Char.isWhitespace).reverse.dropWhile Char.isWhitespace).reverse⟩

/-- The line-processing loop of `stream_api1` (lines 105–142), parameterised by
the remaining stream lines, the current `sentence_buffer`, and the pending
connection failure (delivered once the line iterator is exhausted, matching the
`except` clauses at lines 144–149).  Returns the queue items put by the loop,
in order.  Reaching the end of the lines without the `[DONE]` sentinel models
the connection closing. -/
def stream_api1_loop : List Frame → String → Option String → List QueueItem
  | [], _, none => []
  | [], _, some msg => [QueueItem.error msg]
  | Frame.doneMark :: _, buf, _ =>
      if strip buf = "" then [] else [QueueItem.translate buf true]
  | Frame.data c :: rest, buf, fail =>
      if c = "" then stream_api1_loop rest buf fail
      else
        QueueItem.original c ::
          (if hasBoundary c then
            (if strip (buf ++ c) = "" then
              stream_api1_loop rest (buf ++ c) fail
            else
              QueueItem.translate (buf ++ c) false ::
                stream_api1_loop rest "" fail)
          else
            stream_api1_loop rest (buf ++ c) fail)
  | Frame.malformed :: rest, buf, fail => stream_api1_loop rest buf fail
  | Frame.nonData :: rest, buf, fail => stream_api1_loop rest buf fail

/-- Producer `stream_api1` (lines 78–152): the full ordered sequence of items
it puts on the queue.  On a non-200 status it puts an error item, then `None`,
then returns — and the `finally` block (line 151) puts `None` again.  On the
200 path it runs the segmentation loop and the `finally` block appends the
sentinel. -/
def stream_api1 (resp : UpstreamResponse) : List QueueItem :=
  if resp.status ≠ 200 then
    [QueueItem.error ("API 1 failed: " ++ toString resp.status),
     QueueItem.sentinel, QueueItem.sentinel]
  else
    stream_api1_loop resp.frames "" resp.failure ++ [QueueItem.sentinel]

/-- The line-processing loop of `translate_text` (lines 183–198) plus its
`except` clauses: yields a `translation` event per non-empty delta, stops at
`[DONE]`, and yields a single `error` event if the connection fails before the
terminator. -/
def translate_text_loop : List Frame → Option String → List OutEvent
  | [], none => []
  | [], some msg => [OutEvent.error msg]
  | Frame.doneMark :: _, _ => []
  | Frame.data c :: rest, fail =>
      if c = "" then translate_text_loop rest fail
      else OutEvent.translation c :: translate_text_loop rest fail
  | Frame.malformed :: rest, fail => translate_text_loop rest fail
  | Frame.nonData :: rest, fail => translate_text_loop rest fail

/-- `translate_text` (lines 155–204): the events yielded for one sentence
unit, given the translator call's response.  A non-200 status yields the
single event `{'type': 'error', 'message': 'Translation failed'}` (line 180). -/
def translate_text (resp : UpstreamResponse) : List OutEvent :=
  if resp.status ≠ 200 then [OutEvent.error "Translation failed"]
  else translate_text_loop resp.frames resp.failure

/-- The drain loop of `real_time_translation_pipeline` (lines 214–239) run to
completion over the queue contents, with the translator's behaviour given as a
stub `tr` mapping each unit's text to the translator call's response.  `None`
yields `done` and breaks; an error item yields `error` and breaks; an original
item is forwarded; a translate item re-yields every event of `translate_text`
(without inspecting them) and then a `separator` unless the unit is final. -/
def drainLoop (tr : String → UpstreamResponse) : List QueueItem → List OutEvent
  | [] => []
  | QueueItem.sentinel :: _ => [OutEvent.done]
  | QueueItem.error m :: _ => [OutEvent.error m]
  | QueueItem.original t :: rest => OutEvent.original t :: drainLoop tr rest
  | QueueItem.translate t fin :: rest =>
      translate_text (tr t) ++
        (if fin then [] else [OutEvent.separator]) ++ drainLoop tr rest

/-- `real_time_translation_pipeline` (lines 207–245): the ordered wire events
of one request, given the generation call's response and the translator stub. -/
def real_time_translation_pipeline
    (gen : UpstreamResponse) (tr : String → UpstreamResponse) : List OutEvent :=
  drainLoop tr (stream_api1 gen)

/-- The pruning step of `check_rate_limit` (lines 64–67): keep the timestamps
with `current_time - timestamp < 60`. -/
def pruneWindow (now : ℚ) (w : List ℚ) : List ℚ :=
  w.filter (fun t => now - t < 60)

/-- `check_rate_limit` (lines 59–75) acting on one client's window: prune,
then reject if the remaining count reaches the cap, otherwise record `now`
and admit.  Returns the decision and the updated window. -/
def check_rate_limit (now : ℚ) (w : List ℚ) : Bool × List ℚ :=
  if MAX_REQUESTS_PER_MINUTE ≤ (pruneWindow now w).length then
    (false, pruneWindow now w)
  else (true, pruneWindow now w ++ [now])

/-- A sequence of admission checks for one client at the given times, starting
from window `w`; returns the decisions in order and the final window. -/
def runChecksAux : List ℚ → List ℚ → List Bool × List ℚ
  | [], w => ([], w)
  | t :: ts, w =>
      let r := check_rate_limit t w
      let rest := runChecksAux ts r.2
      (r.1 :: rest.1, rest.2)

/-- `runChecksAux` starting from the empty window of a fresh client identity
(`defaultdict(list)`, line 29). -/
def runChecks (ts : List ℚ) : List Bool × List ℚ :=
  runChecksAux ts []

/-- Outcome of the admission phase of the `/translate-stream` handler. -/
inductive AdmissionResult where
  | rateLimited
  | promptTooLong
  | admitted
deriving DecidableEq

/-- Admission logic of `translate_stream` (lines 248–266): the rate check runs
first (recording the timestamp if it admits), and only then is the prompt
length validated (`> 1000` rejected with HTTP 400).  Returns the outcome and
the client's updated rate window. -/
def translate_stream (now : ℚ) (w : List ℚ) (prompt : String) :
    AdmissionResult × List ℚ :=
  let r := check_rate_limit now w
  if r.1 = false then (AdmissionResult.rateLimited, r.2)
  else if prompt.length > 1000 then (AdmissionResult.promptTooLong, r.2)
  else (AdmissionResult.admitted, r.2)

/-- The value of `sentence_buffer` after `stream_api1_loop` has consumed the
given lines (mirrors the buffer updates of lines 105–139 exactly). -/
def stream_api1_buffer : List Frame → String → String
  | [], buf => buf
  | Frame.doneMark :: _, buf => buf
  | Frame.data c :: rest, buf =>
      if c = "" then stream_api1_buffer rest buf
      else
        if hasBoundary c then
          (if strip (buf ++ c) = "" then stream_api1_buffer rest (buf ++ c)
           else stream_api1_buffer rest "")
        else stream_api1_buffer rest (buf ++ c)
  | Frame.malformed :: rest, buf => stream_api1_buffer rest buf
  | Frame.nonData :: rest, buf => stream_api1_buffer rest buf

/-- The concatenation of a list of token deltas. -/
def concatDeltas : List String → String
  | [] => ""
  | d :: ds => d ++ concatDeltas ds

/-- The `(text, is_final)` pairs of the translate units among queue items. -/
def translatesOf (items : List QueueItem) : List (String × Bool) :=
  items.filterMap (fun i =>
    match i with
    | QueueItem.translate t fin => some (t, fin)
    | _ => none)

/-- Number of end-of-producer sentinels among queue items. -/
def countSent (items : List QueueItem) : Nat :=
  (items.filter (fun i => i = QueueItem.sentinel)).length

/-- Number of `done` events in an output event sequence. -/
def countDone (evs : List OutEvent) : Nat :=
  (evs.filter (fun e => e = OutEvent.done)).length

/-- A queue item that does not terminate the drain loop. -/
def nonTerminal : QueueItem → Bool
  | QueueItem.sentinel => false
  | QueueItem.error _ => false
  | _ => true

/-- A scheduling decision of the cooperative scheduler: run the producer task
or the consumer (drain) loop for one step. -/
inductive Step where
  | producer
  | consumer
deriving DecidableEq

/-- State of the interleaved producer/consumer execution of one request:
items the producer has yet to put, current queue contents, events yielded so
far, and whether the drain loop has hit `break`. -/
structure ExecState where
  pending : List QueueItem
  queue : List QueueItem
  output : List OutEvent
  halted : Bool
deriving DecidableEq

/-- The events yielded for one dequeued item and whether the drain loop then
breaks (the `chunk` dispatch of lines 219–235). -/
def consumeItem (tr : String → UpstreamResponse) :
    QueueItem → List OutEvent × Bool
  | QueueItem.sentinel => ([OutEvent.done], true)
  | QueueItem.error m => ([OutEvent.error m], true)
  | QueueItem.original t => ([OutEvent.original t], false)
  | QueueItem.translate t fin =>
      (translate_text (tr t) ++ (if fin then [] else [OutEvent.separator]),
       false)

/-- One cooperative step: a producer step moves the next pending item onto
the queue if the queue is below its capacity of 100 (line 209), otherwise it
suspends (no-op); a consumer step dequeues and fully processes one item if
the queue is non-empty and the loop has not broken, otherwise it suspends.
The producer keeps running after the consumer breaks (it is awaited, not
cancelled). -/
def execStep (tr : String → UpstreamResponse) (s : ExecState) : Step → ExecState
  | Step.producer =>
      match s.pending with
      | [] => s
      | i :: rest =>
          if s.queue.length < 100 then
            { s with pending := rest, queue := s.queue ++ [i] }
          else s
  | Step.consumer =>
      if s.halted then s
      else
        match s.queue with
        | [] => s
        | i :: rest =>
            let r := consumeItem tr i
            { s with queue := rest, output := s.output ++ r.1, halted := r.2 }

/-- Run a whole schedule of cooperative steps. -/
def execSteps (tr : String → UpstreamResponse) :
    List Step → ExecState → ExecState
  | [], s => s
  | st :: sts, s => execSteps tr sts (execStep tr s st)

/-- Initial state of a request: the producer holds its whole item sequence,
queue empty, nothing yielded. -/
def initState (gen : UpstreamResponse) : ExecState :=
  ⟨stream_api1 gen, [], [], false⟩

/-- Interleaved execution of one request under a given schedule. -/
def execRun (gen : UpstreamResponse) (tr : String → UpstreamResponse)
    (sched : List Step) : ExecState :=
  execSteps tr sched (initState gen)

/-! ### Producer-side lemmas -/

theorem stream_api1_loop_no_sentinel :
    ∀ (frames : List Frame) (buf : String) (fail : Option String),
      QueueItem.sentinel ∉ stream_api1_loop frames buf fail := by
  intro frames
  induction frames with
  | nil =>
    intro buf fail
    cases fail <;> simp [stream_api1_loop]
  | cons f rest ih =>
    intro buf fail
    cases f with
    | data c =>
      by_cases hc : c = ""
      · simpa [stream_api1_loop, hc] using ih buf fail
      · simp only [stream_api1_loop, if_neg hc]
        by_cases hb : hasBoundary c
        · by_cases hs : strip (buf ++ c) = ""
          · simpa [hb, hs] using ih (buf ++ c) fail
          · simpa [hb, hs] using ih "" fail
        · simpa [hb] using ih (buf ++ c) fail
    | doneMark =>
      simp only [stream_api1_loop]
      split <;> simp
    | malformed => simpa [stream_api1_loop] using ih buf fail
    | nonData => simpa [stream_api1_loop] using ih buf fail

theorem countSent_eq_zero {items : List QueueItem}
    (h : QueueItem.sentinel ∉ items) : countSent items = 0 := by
  unfold countSent
  rw [List.filter_eq_nil_iff.mpr]
  · rfl
  · intro a ha
    simp only [decide_eq_true_eq]
    intro he
    exact h (he ▸ ha)

theorem countSent_append (a b : List QueueItem) :
    countSent (a ++ b) = countSent a + countSent b := by
  simp [countSent, List.filter_append]

/-- C3: the claim that the producer enqueues exactly one end-of-producer
sentinel on every exit path is false on the non-2xx path: there `stream_api1`
puts the error item, then `None` (line 102), returns — and the `finally`
block (line 151) puts `None` a second time, so two sentinels are enqueued. -/
theorem c3_counterexample :
    stream_api1 ⟨500, [], none⟩ =
      [QueueItem.error "API 1 failed: 500", QueueItem.sentinel,
       QueueItem.sentinel] ∧
    countSent (stream_api1 ⟨500, [], none⟩) = 2 := by
  decide

/-- C3 (amended): on every producer run the last enqueued item is the
sentinel, and the sentinel is enqueued exactly once on every exit path
except the non-2xx-status path, where it is enqueued twice. -/
theorem c3_amended (resp : UpstreamResponse) :
    (stream_api1 resp).getLast? = some QueueItem.sentinel ∧
    countSent (stream_api1 resp) = (if resp.status = 200 then 1 else 2) := by
  unfold stream_api1
  by_cases h : resp.status = 200
  · simp only [h, ne_eq, not_true_eq_false, if_false, if_true]
    constructor
    · exact List.getLast?_concat _
    · rw [countSent_append,
        countSent_eq_zero (stream_api1_loop_no_sentinel _ _ _)]
      rfl
  · simp only [h, ne_eq, not_false_eq_true, if_true, if_false]
    constructor
    · rfl
    · simp [countSent, List.filter]

/-- C2: the claim that the delta sequence
`["Hello", " world.", " Next part", " here?"]` followed by `[DONE]` yields the
units `("Hello world.", isFinal:false)` then `(" Next part here?",
isFinal:true)` is false: the delta `" here?"` contains the boundary character
`?`, so the second unit is flushed at line 134 with `is_final=False`, and at
`[DONE]` the buffer is empty, so no `is_final=True` unit is emitted at all. -/
theorem c2_counterexample :
    translatesOf (stream_api1 ⟨200,
        [Frame.data "Hello", Frame.data " world.", Frame.data " Next part",
         Frame.data " here?", Frame.doneMark], none⟩) =
      [("Hello world.", false), (" Next part here?", false)] ∧
    translatesOf (stream_api1 ⟨200,
        [Frame.data "Hello", Frame.data " world.", Frame.data " Next part",
         Frame.data " here?", Frame.doneMark], none⟩) ≠
      [("Hello world.", false), (" Next part here?", true)] := by
  decide

/-- C2 (amended): for the delta sequence `["Hello", " world.", " Next part",
" here?"]` followed by `[DONE]`, the Segmenter emits exactly two translate
units, `("Hello world.", isFinal:false)` then `(" Next part here?",
isFinal:false)` — the second is flushed at the `?` boundary, not at stream
end, so neither unit has `isFinal=true` — and an original event is enqueued
for each of the 4 deltas in arrival order, each before its corresponding
translate unit. -/
theorem c2_amended :
    stream_api1 ⟨200,
        [Frame.data "Hello", Frame.data " world.", Frame.data " Next part",
         Frame.data " here?", Frame.doneMark], none⟩ =
      [QueueItem.original "Hello",
       QueueItem.original " world.",
       QueueItem.translate "Hello world." false,
       QueueItem.original " Next part",
       QueueItem.original " here?",
       QueueItem.translate " Next part here?" false,
       QueueItem.sentinel] := by
  decide

/-- C4: the claim that a stream ending without the `[DONE]` sentinel line
still flushes a non-whitespace trailing buffer as a final unit is false: the
final flush (lines 111–117) happens only inside the `data == '[DONE]'`
branch, so when the line iterator is simply exhausted the buffer `"Hello"`
(non-empty after stripping) is dropped and only the sentinel follows the
original event. -/
theorem c4_counterexample :
    stream_api1 ⟨200, [Frame.data "Hello"], none⟩ =
      [QueueItem.original "Hello", QueueItem.sentinel] ∧
    strip "Hello" ≠ "" ∧
    translatesOf (stream_api1 ⟨200, [Frame.data "Hello"], none⟩) = [] := by
  decide

theorem stream_api1_loop_concat_doneMark :
    ∀ (frames : List Frame) (buf : String), Frame.doneMark ∉ frames →
      stream_api1_loop (frames ++ [Frame.doneMark]) buf none =
        stream_api1_loop frames buf none ++
          (if strip (stream_api1_buffer frames buf) = "" then []
           else [QueueItem.translate (stream_api1_buffer frames buf) true]) := by
  intro frames
  induction frames with
  | nil =>
    intro buf _
    simp [stream_api1_loop, stream_api1_buffer]
  | cons f rest ih =>
    intro buf hnd
    have hnd' : Frame.doneMark ∉ rest := fun h => hnd (List.mem_cons_of_mem _ h)
    cases f with
    | data c =>
      by_cases hc : c = ""
      · simpa [stream_api1_loop, stream_api1_buffer, hc] using ih buf hnd'
      · simp only [List.cons_append, stream_api1_loop, stream_api1_buffer,
          if_neg hc]
        by_cases hb : hasBoundary c
        · by_cases hs : strip (buf ++ c) = ""
          · simp [hb, hs, ih (buf ++ c) hnd']
          · simp [hb, hs, ih "" hnd']
        · simp [hb, ih (buf ++ c) hnd']
    | doneMark => exact absurd (List.mem_cons_self _ _) hnd
    | malformed =>
      simpa [stream_api1_loop, stream_api1_buffer] using ih buf hnd'
    | nonData =>
      simpa [stream_api1_loop, stream_api1_buffer] using ih buf hnd'

theorem stream_api1_loop_no_final :
    ∀ (frames : List Frame) (buf : String), Frame.doneMark ∉ frames →
      ∀ t, QueueItem.translate t true ∉ stream_api1_loop frames buf none := by
  intro frames
  induction frames with
  | nil => intro buf _ t; simp [stream_api1_loop]
  | cons f rest ih =>
    intro buf hnd t
    have hnd' : Frame.doneMark ∉ rest := fun h => hnd (List.mem_cons_of_mem _ h)
    cases f with
    | data c =>
      by_cases hc : c = ""
      · simpa [stream_api1_loop, hc] using ih buf hnd' t
      · simp only [stream_api1_loop, if_neg hc]
        by_cases hb : hasBoundary c
        · by_cases hs : strip (buf ++ c) = ""
          · simpa [hb, hs] using ih (buf ++ c) hnd' t
          · simpa [hb, hs] using ih "" hnd' t
        · simpa [hb] using ih (buf ++ c) hnd' t
    | doneMark => exact absurd (List.mem_cons_self _ _) hnd
    | malformed => simpa [stream_api1_loop] using ih buf hnd' t
    | nonData => simpa [stream_api1_loop] using ih buf hnd' t

/-- C4 (amended): the final `isFinal=true` flush happens only when the
`[DONE]` sentinel line is received.  If the stream is terminated by the
sentinel and the accumulated buffer strips non-empty, the final unit carrying
the full buffer is enqueued just before the end-of-producer sentinel; if the
stream ends without the `[DONE]` line (the connection closes), no
`isFinal=true` unit is ever enqueued and the trailing buffer is dropped. -/
theorem c4_amended (frames : List Frame) (hnd : Frame.doneMark ∉ frames)
    (hne : strip (stream_api1_buffer frames "") ≠ "") :
    stream_api1 ⟨200, frames ++ [Frame.doneMark], none⟩ =
      stream_api1_loop frames "" none ++
        [QueueItem.translate (stream_api1_buffer frames "") true,
         QueueItem.sentinel] ∧
    ∀ t, QueueItem.translate t true ∉ stream_api1 ⟨200, frames, none⟩ := by
  constructor
  · show stream_api1_loop (frames ++ [Frame.doneMark]) "" none ++
        [QueueItem.sentinel] = _
    rw [stream_api1_loop_concat_doneMark frames "" hnd, if_neg hne,
      List.append_assoc]
    rfl
  · intro t hmem
    have : QueueItem.translate t true ∈
        stream_api1_loop frames "" none ++ [QueueItem.sentinel] := hmem
    rcases List.mem_append.mp this with h | h
    · exact stream_api1_loop_no_final frames "" hnd t h
    · simp at h

/-- C4 (amended) witness at the stream `[data "Hi"]`. -/
theorem c4_amended_witness :
    stream_api1 ⟨200, [Frame.data "Hi"] ++ [Frame.doneMark], none⟩ =
      [QueueItem.original "Hi", QueueItem.translate "Hi" true,
       QueueItem.sentinel] ∧
    QueueItem.translate "Hi" true ∉ stream_api1 ⟨200, [Frame.data "Hi"], none⟩ := by
  have h := c4_amended [Frame.data "Hi"] (by decide) (by decide)
  exact ⟨h.1.trans (by decide), h.2 "Hi"⟩

/-- C10: a stream line whose extracted text delta is the empty string is a
no-op for the Segmenter: `if content:` (line 124) skips the original event,
the buffer append, and the boundary check, so inserting such a line anywhere
in the stream leaves the producer's queue output unchanged — in particular it
can never trigger a translate flush. -/
theorem c10_empty_delta (pre post : List Frame) (buf : String)
    (fail : Option String) :
    stream_api1_loop (pre ++ Frame.data "" :: post) buf fail =
      stream_api1_loop (pre ++ post) buf fail := by
  induction pre generalizing buf with
  | nil => simp [stream_api1_loop]
  | cons f rest ih =>
    cases f with
    | data c =>
      by_cases hc : c = ""
      · simpa [stream_api1_loop, hc] using ih buf
      · simp only [List.cons_append, stream_api1_loop, if_neg hc]
        by_cases hb : hasBoundary c
        · by_cases hs : strip (buf ++ c) = ""
          · simp [hb, hs, ih (buf ++ c)]
          · simp [hb, hs, ih ""]
        · simp [hb, ih (buf ++ c)]
    | doneMark => simp [stream_api1_loop]
    | malformed => simpa [stream_api1_loop] using ih buf
    | nonData => simpa [stream_api1_loop] using ih buf

/-! ### Segmenter without boundary characters (C5) -/

theorem stream_api1_loop_no_boundary :
    ∀ (ds : List String) (buf : String), (∀ d ∈ ds, hasBoundary d = false) →
      translatesOf (stream_api1_loop (ds.map Frame.data ++ [Frame.doneMark])
          buf none) =
        (if strip (buf ++ concatDeltas ds) = "" then []
         else [(buf ++ concatDeltas ds, true)]) := by
  intro ds
  induction ds with
  | nil =>
    intro buf _
    simp only [List.map_nil, List.nil_append, stream_api1_loop, concatDeltas,
      String.append_empty]
    by_cases hs : strip buf = "" <;> simp [hs, translatesOf]
  | cons d ds ih =>
    intro buf h
    have hd : hasBoundary d = false := h d (List.mem_cons_self _ _)
    have hds : ∀ x ∈ ds, hasBoundary x = false :=
      fun x hx => h x (List.mem_cons_of_mem _ hx)
    by_cases hc : d = ""
    · rw [hc] at hd ⊢
      simp only [List.map_cons, List.cons_append, stream_api1_loop, if_pos rfl,
        concatDeltas, String.empty_append]
      exact ih buf hds
    · simp only [List.map_cons, List.cons_append, stream_api1_loop, if_neg hc,
        hd, Bool.false_eq_true, if_false, concatDeltas, translatesOf,
        List.filterMap_cons, List.append_eq]
      rw [← translatesOf, ih (buf ++ d) hds, String.append_assoc]

/-- C5: for every token-delta sequence containing no boundary character
(`.`, `!`, `?`, newline), the Segmenter flushes nothing at any delta — the
only translate unit it can enqueue is the single `isFinal=true` unit at the
`[DONE]` line, carrying the full concatenation of the deltas, and that unit
exists exactly when the concatenation is not whitespace-only. -/
theorem c5_no_boundary (ds : List String)
    (h : ∀ d ∈ ds, hasBoundary d = false) :
    translatesOf (stream_api1 ⟨200, ds.map Frame.data ++ [Frame.doneMark],
        none⟩) =
      (if strip (concatDeltas ds) = "" then []
       else [(concatDeltas ds, true)]) := by
  show translatesOf (stream_api1_loop (ds.map Frame.data ++ [Frame.doneMark])
      "" none ++ [QueueItem.sentinel]) = _
  rw [translatesOf, List.filterMap_append, ← translatesOf,
    stream_api1_loop_no_boundary ds "" h]
  simp [String.empty_append, translatesOf]

/-- C5 witness at the boundary-free delta sequence `["Hello", " world"]`. -/
theorem c5_no_boundary_witness :
    translatesOf (stream_api1 ⟨200,
        (["Hello", " world"].map Frame.data) ++ [Frame.doneMark], none⟩) =
      [("Hello world", true)] := by
  have h := c5_no_boundary ["Hello", " world"] (by decide)
  exact h.trans (by decide)

/-! ### Drain-loop lemmas and the terminal-event structure -/

theorem translate_text_loop_no_done :
    ∀ (frames : List Frame) (fail : Option String),
      OutEvent.done ∉ translate_text_loop frames fail := by
  intro frames
  induction frames with
  | nil => intro fail; cases fail <;> simp [translate_text_loop]
  | cons f rest ih =>
    intro fail
    cases f with
    | data c =>
      by_cases hc : c = ""
      · simpa [translate_text_loop, hc] using ih fail
      · simpa [translate_text_loop, hc] using ih fail
    | doneMark => simp [translate_text_loop]
    | malformed => simpa [translate_text_loop] using ih fail
    | nonData => simpa [translate_text_loop] using ih fail

theorem translate_text_no_done (resp : UpstreamResponse) :
    OutEvent.done ∉ translate_text resp := by
  unfold translate_text
  split
  · simp
  · exact translate_text_loop_no_done _ _

theorem countDone_eq_zero {evs : List OutEvent}
    (h : OutEvent.done ∉ evs) : countDone evs = 0 := by
  unfold countDone
  rw [List.filter_eq_nil_iff.mpr]
  · rfl
  · intro a ha
    simp only [decide_eq_true_eq]
    intro he
    exact h (he ▸ ha)

theorem countDone_append (a b : List OutEvent) :
    countDone (a ++ b) = countDone a + countDone b := by
  simp [countDone, List.filter_append]

theorem stream_api1_loop_nonTerminal :
    ∀ (frames : List Frame) (buf : String),
      ∀ i ∈ stream_api1_loop frames buf none, nonTerminal i = true := by
  intro frames
  induction frames with
  | nil => intro buf i hi; simp [stream_api1_loop] at hi
  | cons f rest ih =>
    intro buf i hi
    cases f with
    | data c =>
      by_cases hc : c = ""
      · exact ih buf i (by simpa [stream_api1_loop, hc] using hi)
      · simp only [stream_api1_loop, if_neg hc] at hi
        by_cases hb : hasBoundary c
        · by_cases hs : strip (buf ++ c) = ""
          · simp only [hb, if_true, hs, List.mem_cons] at hi
            rcases hi with rfl | hi
            · rfl
            · exact ih (buf ++ c) i hi
          · simp only [hb, if_true, hs, if_false, List.mem_cons] at hi
            rcases hi with rfl | rfl | hi
            · rfl
            · rfl
            · exact ih "" i hi
        · simp only [hb, Bool.false_eq_true, if_false, List.mem_cons] at hi
          rcases hi with rfl | hi
          · rfl
          · exact ih (buf ++ c) i hi
    | doneMark =>
      simp only [stream_api1_loop] at hi
      split at hi <;> simp at hi
      subst hi; rfl
    | malformed => exact ih buf i (by simpa [stream_api1_loop] using hi)
    | nonData => exact ih buf i (by simpa [stream_api1_loop] using hi)

theorem drainLoop_nonTerminal (tr : String → UpstreamResponse) :
    ∀ (items : List QueueItem), (∀ i ∈ items, nonTerminal i = true) →
      ∃ pre, drainLoop tr (items ++ [QueueItem.sentinel]) =
          pre ++ [OutEvent.done] ∧ countDone pre = 0 := by
  intro items
  induction items with
  | nil =>
    intro _
    exact ⟨[], by simp [drainLoop], rfl⟩
  | cons i rest ih =>
    intro h
    have hi : nonTerminal i = true := h i (List.mem_cons_self _ _)
    have hrest : ∀ j ∈ rest, nonTerminal j = true :=
      fun j hj => h j (List.mem_cons_of_mem _ hj)
    obtain ⟨pre, hpre, hcnt⟩ := ih hrest
    cases i with
    | original t =>
      refine ⟨OutEvent.original t :: pre, ?_, ?_⟩
      · simp [drainLoop, hpre]
      · simpa [countDone, List.filter] using hcnt
    | translate t fin =>
      refine ⟨translate_text (tr t) ++
        (if fin then [] else [OutEvent.separator]) ++ pre, ?_, ?_⟩
      · simp [drainLoop, hpre]
      · rw [countDone_append, countDone_append, hcnt,
          countDone_eq_zero (translate_text_no_done (tr t))]
        cases fin <;> simp [countDone, List.filter]
    | error m => simp [nonTerminal] at hi
    | sentinel => simp [nonTerminal] at hi

theorem pipeline_ok_shape (frames : List Frame)
    (tr : String → UpstreamResponse) :
    ∃ pre, real_time_translation_pipeline ⟨200, frames, none⟩ tr =
        pre ++ [OutEvent.done] ∧ countDone pre = 0 := by
  unfold real_time_translation_pipeline
  show ∃ pre, drainLoop tr (stream_api1_loop frames "" none ++
      [QueueItem.sentinel]) = pre ++ [OutEvent.done] ∧ countDone pre = 0
  exact drainLoop_nonTerminal tr _ (stream_api1_loop_nonTerminal frames "")

/-- C1: the claim that a non-2xx translator call for some unit makes the
output stream end with a terminal `error` event — with `translation` events
only for units before the failing one and no `done` ever after an `error` —
is false.  The drain loop (lines 230–235) re-yields whatever `translate_text`
yields without inspecting it, so the translator's `error` event is emitted
inline, a `separator` still follows for a non-final unit, later units are
still translated, and the stream still ends with `done`.  Here the translator
fails on the second of three units, yet the third unit's translation and a
final `done` both appear after the `error`. -/
theorem c1_counterexample :
    real_time_translation_pipeline
        ⟨200, [Frame.data "One.", Frame.data "Two!", Frame.data "Three?",
               Frame.doneMark], none⟩
        (fun t => if t = "Two!" then ⟨500, [], none⟩
                  else ⟨200, [Frame.data "T", Frame.doneMark], none⟩) =
      [OutEvent.original "One.", OutEvent.translation "T", OutEvent.separator,
       OutEvent.original "Two!", OutEvent.error "Translation failed",
       OutEvent.separator,
       OutEvent.original "Three?", OutEvent.translation "T",
       OutEvent.separator, OutEvent.done] ∧
    OutEvent.error "Translation failed" ∈
      real_time_translation_pipeline
        ⟨200, [Frame.data "One.", Frame.data "Two!", Frame.data "Three?",
               Frame.doneMark], none⟩
        (fun t => if t = "Two!" then ⟨500, [], none⟩
                  else ⟨200, [Frame.data "T", Frame.doneMark], none⟩) ∧
    (real_time_translation_pipeline
        ⟨200, [Frame.data "One.", Frame.data "Two!", Frame.data "Three?",
               Frame.doneMark], none⟩
        (fun t => if t = "Two!" then ⟨500, [], none⟩
                  else ⟨200, [Frame.data "T", Frame.doneMark], none⟩)).getLast?
      = some OutEvent.done := by
  refine ⟨by decide, by decide, by decide⟩

/-- C1 (amended): a failing translator call does not terminate the stream.
When the generation call itself succeeds (status 200, stream intact), the
pipeline's output ends with a `done` event and contains exactly one `done`,
whatever the translator responds for each unit — translator failures only
insert inline `error` events produced by `translate_text`.  Only
producer-side entries (`{'error': ...}` items) yield a terminal `error`. -/
theorem c1_amended (frames : List Frame) (tr : String → UpstreamResponse) :
    (real_time_translation_pipeline ⟨200, frames, none⟩ tr).getLast? =
      some OutEvent.done ∧
    countDone (real_time_translation_pipeline ⟨200, frames, none⟩ tr) = 1 := by
  obtain ⟨pre, hpre, hcnt⟩ := pipeline_ok_shape frames tr
  rw [hpre]
  refine ⟨List.getLast?_concat _, ?_⟩
  rw [countDone_append, hcnt]
  rfl

/-! ### Translate units are never whitespace-only (C7) -/

theorem stream_api1_loop_strip_ne :
    ∀ (frames : List Frame) (buf : String) (fail : Option String) (t : String)
      (fin : Bool), QueueItem.translate t fin ∈ stream_api1_loop frames buf fail →
      strip t ≠ "" := by
  intro frames
  induction frames with
  | nil =>
    intro buf fail t fin h
    cases fail <;> simp [stream_api1_loop] at h
  | cons f rest ih =>
    intro buf fail t fin h
    cases f with
    | data c =>
      by_cases hc : c = ""
      · exact ih buf fail t fin (by simpa [stream_api1_loop, hc] using h)
      · simp only [stream_api1_loop, if_neg hc] at h
        by_cases hb : hasBoundary c
        · by_cases hs : strip (buf ++ c) = ""
          · simp only [hb, if_true, hs, List.mem_cons] at h
            rcases h with hh | hh
            · exact absurd hh (by simp)
            · exact ih (buf ++ c) fail t fin hh
          · simp only [hb, if_true, hs, if_false, List.mem_cons] at h
            rcases h with hh | hh | hh
            · exact absurd hh (by simp)
            · obtain ⟨ht, -⟩ := QueueItem.translate.inj hh
              exact ht ▸ hs
            · exact ih "" fail t fin hh
        · simp only [hb, Bool.false_eq_true, if_false, List.mem_cons] at h
          rcases h with hh | hh
          · exact absurd hh (by simp)
          · exact ih (buf ++ c) fail t fin hh
    | doneMark =>
      simp only [stream_api1_loop] at h
      by_cases hs : strip buf = ""
      · rw [if_pos hs] at h
        simp at h
      · rw [if_neg hs] at h
        simp only [List.mem_singleton] at h
        obtain ⟨ht, -⟩ := QueueItem.translate.inj h
        exact ht ▸ hs
    | malformed => exact ih buf fail t fin (by simpa [stream_api1_loop] using h)
    | nonData => exact ih buf fail t fin (by simpa [stream_api1_loop] using h)

/-- C7: every translate unit the producer puts on the hand-off queue has text
that is non-empty after stripping whitespace — both flush sites (lines 112 and
133) are guarded by `sentence_buffer.strip()` — and a run whose generation
stream completes (in particular one whose trailing buffer was whitespace-only
and therefore dropped) still ends with a terminal `done` event. -/
theorem c7_unit_invariant :
    (∀ (resp : UpstreamResponse) (t : String) (fin : Bool),
      QueueItem.translate t fin ∈ stream_api1 resp → strip t ≠ "") ∧
    (∀ (frames : List Frame) (tr : String → UpstreamResponse),
      (real_time_translation_pipeline ⟨200, frames, none⟩ tr).getLast? =
        some OutEvent.done) := by
  constructor
  · intro resp t fin h
    unfold stream_api1 at h
    split at h
    · simp at h
    · rcases List.mem_append.mp h with hh | hh
      · exact stream_api1_loop_strip_ne _ _ _ t fin hh
      · simp at hh
  · intro frames tr
    obtain ⟨pre, hpre, -⟩ := pipeline_ok_shape frames tr
    rw [hpre]
    exact List.getLast?_concat _

/-- C7 witness: the unit flushed for the stream `[data " \n ", data "Hi."]`
strips non-empty, and the whitespace-only-buffer stream `[data " \n ",
doneMark]` enqueues no unit yet its pipeline run ends with `done`. -/
theorem c7_unit_invariant_witness :
    strip " \n Hi." ≠ "" ∧
    (real_time_translation_pipeline ⟨200, [Frame.data " \n ", Frame.doneMark],
        none⟩ (fun _ => ⟨200, [], none⟩)).getLast? = some OutEvent.done := by
  constructor
  · exact c7_unit_invariant.1 ⟨200, [Frame.data " \n ", Frame.data "Hi.",
      Frame.doneMark], none⟩ " \n Hi." false (by decide)
  · exact c7_unit_invariant.2 [Frame.data " \n ", Frame.doneMark] _

/-! ### Schedule-independence of the interleaved execution (C8) -/

/-- Invariant of the interleaved execution: before the drain loop breaks, the
output already yielded, followed by the canonical drain of the items still in
flight (queued then pending), is the canonical run; after the break the
output IS the canonical run. -/
def InvP (tr : String → UpstreamResponse) (target : List OutEvent) :
    ExecState → Prop
  | ⟨pending, queue, output, halted⟩ =>
      (halted = false → output ++ drainLoop tr (queue ++ pending) = target) ∧
      (halted = true → output = target)

theorem execStep_inv (tr : String → UpstreamResponse) (target : List OutEvent)
    (s : ExecState) (st : Step) (h : InvP tr target s) :
    InvP tr target (execStep tr s st) := by
  obtain ⟨pending, queue, output, halted⟩ := s
  cases st with
  | producer =>
    cases pending with
    | nil => exact h
    | cons i rest =>
      by_cases hq : queue.length < 100
      · simp only [execStep, if_pos hq, InvP] at h ⊢
        refine ⟨fun hh => ?_, h.2⟩
        rw [List.append_assoc, List.singleton_append]
        exact h.1 hh
      · simp only [execStep, if_neg hq]
        exact h
  | consumer =>
    cases halted with
    | true => exact h
    | false =>
      cases queue with
      | nil => exact h
      | cons i rest =>
        simp only [InvP] at h
        have hbase := h.1 trivial
        cases i with
        | original t =>
          show InvP tr target
            ⟨pending, rest, output ++ [OutEvent.original t], false⟩
          simp only [InvP]
          refine ⟨fun _ => ?_, fun hc => by cases hc⟩
          rw [List.append_assoc, List.singleton_append]
          simpa [drainLoop] using hbase
        | translate t fin =>
          show InvP tr target
            ⟨pending, rest,
             output ++ (translate_text (tr t) ++
               (if fin then [] else [OutEvent.separator])), false⟩
          simp only [InvP]
          refine ⟨fun _ => ?_, fun hc => by cases hc⟩
          simp only [List.append_assoc]
          simpa [drainLoop, List.append_assoc] using hbase
        | error m =>
          show InvP tr target
            ⟨pending, rest, output ++ [OutEvent.error m], true⟩
          simp only [InvP]
          simpa [drainLoop] using hbase
        | sentinel =>
          show InvP tr target
            ⟨pending, rest, output ++ [OutEvent.done], true⟩
          simp only [InvP]
          simpa [drainLoop] using hbase

theorem execSteps_inv (tr : String → UpstreamResponse)
    (target : List OutEvent) :
    ∀ (sched : List Step) (s : ExecState), InvP tr target s →
      InvP tr target (execSteps tr sched s) := by
  intro sched
  induction sched with
  | nil => intro s h; exact h
  | cons st sts ih =>
    intro s h
    exact ih (execStep tr s st) (execStep_inv tr target s st h)

theorem InvP_halted (tr : String → UpstreamResponse) (target : List OutEvent)
    (s : ExecState) (h : InvP tr target s) (hh : s.halted = true) :
    s.output = target := by
  obtain ⟨pending, queue, output, halted⟩ := s
  exact h.2 hh

theorem execRun_output (gen : UpstreamResponse)
    (tr : String → UpstreamResponse) (sched : List Step)
    (h : (execRun gen tr sched).halted = true) :
    (execRun gen tr sched).output = real_time_translation_pipeline gen tr := by
  refine InvP_halted tr _ _ (execSteps_inv tr _ sched (initState gen) ?_) h
  refine ⟨fun _ => ?_, fun hc => by cases hc⟩
  simp [real_time_translation_pipeline]

/-- C8: the client-visible event sequence of the pipeline is a deterministic
function of the generation response and the translator stub, independent of
how the producer task and the drain loop interleave.  For any two cooperative
schedules under which the drain loop reaches its terminal `break`, the
outputs are identical — both equal the canonical sequential run — so
replaying the same fixed upstream inputs always yields the same ordered event
sequence. -/
theorem c8_determinism (gen : UpstreamResponse)
    (tr : String → UpstreamResponse) (sched1 sched2 : List Step)
    (hA : (execRun gen tr sched1).halted = true)
    (hB : (execRun gen tr sched2).halted = true) :
    (execRun gen tr sched1).output = real_time_translation_pipeline gen tr ∧
    (execRun gen tr sched1).output = (execRun gen tr sched2).output := by
  have e1 := execRun_output gen tr sched1 hA
  have e2 := execRun_output gen tr sched2 hB
  exact ⟨e1, e1.trans e2.symm⟩

/-- C8 witness: a lock-step schedule and a batching schedule both halt on a
two-delta stream and produce the same output. -/
theorem c8_determinism_witness :
    (execRun ⟨200, [Frame.data "Hi.", Frame.doneMark], none⟩
        (fun _ => ⟨200, [Frame.data "Hola.", Frame.doneMark], none⟩)
        [Step.producer, Step.consumer, Step.producer, Step.consumer,
         Step.producer, Step.consumer]).output =
      (execRun ⟨200, [Frame.data "Hi.", Frame.doneMark], none⟩
        (fun _ => ⟨200, [Frame.data "Hola.", Frame.doneMark], none⟩)
        [Step.producer, Step.producer, Step.producer, Step.consumer,
         Step.consumer, Step.consumer]).output :=
  (c8_determinism ⟨200, [Frame.data "Hi.", Frame.doneMark], none⟩
    (fun _ => ⟨200, [Frame.data "Hola.", Frame.doneMark], none⟩)
    [Step.producer, Step.consumer, Step.producer, Step.consumer,
     Step.producer, Step.consumer]
    [Step.producer, Step.producer, Step.producer, Step.consumer,
     Step.consumer, Step.consumer]
    (by decide) (by decide)).2

/-! ### Rate limiter (C6, C9) -/

theorem pruneWindow_all (now : ℚ) (w : List ℚ)
    (h : ∀ t ∈ w, now - t < 60) : pruneWindow now w = w :=
  List.filter_eq_self.mpr (fun a ha => decide_eq_true (h a ha))

theorem pruneWindow_nil (now : ℚ) (w : List ℚ)
    (h : ∀ t ∈ w, ¬ now - t < 60) : pruneWindow now w = [] :=
  List.filter_eq_nil_iff.mpr (fun a ha => by simpa using h a ha)

theorem runChecksAux_admit :
    ∀ (ts : List ℚ) (w : List ℚ), (∀ t ∈ ts, 0 ≤ t ∧ t ≤ 10) →
      (∀ t ∈ w, 0 ≤ t ∧ t ≤ 10) → w.length + ts.length ≤ 60 →
      runChecksAux ts w = (List.replicate ts.length true, w ++ ts) := by
  intro ts
  induction ts with
  | nil => intro w _ _ _; simp [runChecksAux]
  | cons t ts ih =>
    intro w hts hw hlen
    have ht : 0 ≤ t ∧ t ≤ 10 := hts t (List.mem_cons_self _ _)
    have hts' : ∀ x ∈ ts, 0 ≤ x ∧ x ≤ 10 :=
      fun x hx => hts x (List.mem_cons_of_mem _ hx)
    have hprune : pruneWindow t w = w := pruneWindow_all t w (fun x hx => by
      have hx' := hw x hx
      have h1 := ht.2
      have h2 := hx'.1
      linarith)
    have hnotle : ¬ MAX_REQUESTS_PER_MINUTE ≤ (pruneWindow t w).length := by
      rw [hprune]
      simp only [List.length_cons] at hlen
      unfold MAX_REQUESTS_PER_MINUTE
      omega
    have hcheck : check_rate_limit t w = (true, w ++ [t]) := by
      unfold check_rate_limit
      rw [if_neg hnotle, hprune]
    have hw' : ∀ x ∈ w ++ [t], 0 ≤ x ∧ x ≤ 10 := by
      intro x hx
      rcases List.mem_append.mp hx with hx | hx
      · exact hw x hx
      · rw [List.mem_singleton.mp hx]; exact ht
    have hlen' : (w ++ [t]).length + ts.length ≤ 60 := by
      simp only [List.length_append, List.length_cons, List.length_nil]
        at hlen ⊢
      omega
    simp only [runChecksAux, hcheck, ih (w ++ [t]) hts' hw' hlen',
      List.length_cons, List.replicate_succ, List.append_assoc,
      List.singleton_append]

theorem runChecksAux_append :
    ∀ (as bs : List ℚ) (w : List ℚ),
      runChecksAux (as ++ bs) w =
        ((runChecksAux as w).1 ++ (runChecksAux bs (runChecksAux as w).2).1,
         (runChecksAux bs (runChecksAux as w).2).2) := by
  intro as
  induction as with
  | nil => intro bs w; simp [runChecksAux]
  | cons a as ih => intro bs w; simp [runChecksAux, ih]

/-- C6: each admission check first prunes the client's window (keeping the
timestamps with `now - t < 60`), then rejects without recording the new
timestamp when the remaining count is at or over the cap, and otherwise
records `now` and admits.  Consequently, for any 60 admission times within
the first 10 seconds followed by a 61st also within 10 seconds, the first 60
checks admit and the 61st is rejected; and a later request from the same
identity at least 60 seconds after that burst (time ≥ 70) is admitted
again. -/
theorem c6_rate_limit (ts : List ℚ) (t61 tp : ℚ)
    (hlen : ts.length = 60)
    (hts : ∀ t ∈ ts, 0 ≤ t ∧ t ≤ 10)
    (h61a : 0 ≤ t61) (h61b : t61 ≤ 10)
    (htp : 70 ≤ tp) :
    (∀ (now : ℚ) (w : List ℚ),
      (MAX_REQUESTS_PER_MINUTE ≤ (pruneWindow now w).length →
        check_rate_limit now w = (false, pruneWindow now w)) ∧
      ((pruneWindow now w).length < MAX_REQUESTS_PER_MINUTE →
        check_rate_limit now w = (true, pruneWindow now w ++ [now]))) ∧
    runChecks (ts ++ [t61]) = (List.replicate 60 true ++ [false], ts) ∧
    (check_rate_limit tp ts).1 = true := by
  refine ⟨?_, ?_, ?_⟩
  · intro now w
    constructor
    · intro h
      unfold check_rate_limit
      rw [if_pos h]
    · intro h
      unfold check_rate_limit
      rw [if_neg (by omega)]
  · have hfirst : runChecksAux ts [] = (List.replicate 60 true, ts) := by
      have := runChecksAux_admit ts [] hts (by simp) (by simp [hlen])
      simpa [hlen] using this
    have hprune : pruneWindow t61 ts = ts := pruneWindow_all t61 ts
      (fun x hx => by
        have hx' := hts x hx
        linarith [hx'.1])
    have hle : MAX_REQUESTS_PER_MINUTE ≤ (pruneWindow t61 ts).length := by
      rw [hprune, hlen]
      exact Nat.le_refl 60
    have hcheck : check_rate_limit t61 ts = (false, ts) := by
      unfold check_rate_limit
      rw [if_pos hle, hprune]
    unfold runChecks
    rw [runChecksAux_append, hfirst]
    simp [runChecksAux, hcheck]
  · have hprune : pruneWindow tp ts = [] := pruneWindow_nil tp ts
      (fun x hx => by
        have hx' := hts x hx
        have := hx'.2
        intro hcon
        linarith)
    unfold check_rate_limit
    rw [if_neg (by rw [hprune]; simp [MAX_REQUESTS_PER_MINUTE])]

/-- C6 witness: 60 requests at t=1 and a 61st at t=2 — the first 60 admitted,
the 61st rejected — then a request at t=100 admitted again. -/
theorem c6_rate_limit_witness :
    runChecks (List.replicate 60 (1 : ℚ) ++ [2]) =
      (List.replicate 60 true ++ [false], List.replicate 60 (1 : ℚ)) ∧
    (check_rate_limit 100 (List.replicate 60 (1 : ℚ))).1 = true := by
  have h := c6_rate_limit (List.replicate 60 (1 : ℚ)) 2 100
    (by simp)
    (by
      intro t ht
      rw [List.eq_of_mem_replicate ht]
      norm_num)
    (by norm_num) (by norm_num) (by norm_num)
  exact ⟨h.2.1, h.2.2⟩

/-- C9: the `/translate-stream` handler calls `check_rate_limit` before
validating the prompt length (lines 257–266), so a request from an
under-the-cap client whose prompt exceeds 1000 characters has its timestamp
recorded in the client's rate window and is then rejected with the
validation error: a validation-rejected request still consumes one
rate-limit slot. -/
theorem c9_validation_after_rate (now : ℚ) (w : List ℚ) (prompt : String)
    (hadm : (pruneWindow now w).length < MAX_REQUESTS_PER_MINUTE)
    (hlong : prompt.length > 1000) :
    translate_stream now w prompt =
      (AdmissionResult.promptTooLong, pruneWindow now w ++ [now]) ∧
    now ∈ (translate_stream now w prompt).2 := by
  have hcheck : check_rate_limit now w = (true, pruneWindow now w ++ [now]) := by
    unfold check_rate_limit
    rw [if_neg (by omega)]
  have hmain : translate_stream now w prompt =
      (AdmissionResult.promptTooLong, pruneWindow now w ++ [now]) := by
    simp [translate_stream, hcheck, hlong]
  exact ⟨hmain, by rw [hmain]; simp⟩

/-- C9 witness: a fresh client sending a 1001-character prompt gets the
validation rejection and its timestamp is recorded. -/
theorem c9_validation_after_rate_witness :
    translate_stream 0 [] (String.mk (List.replicate 1001 'a')) =
      (AdmissionResult.promptTooLong, [(0 : ℚ)]) ∧
    (0 : ℚ) ∈ (translate_stream 0 [] (String.mk (List.replicate 1001 'a'))).2 := by
  have h := c9_validation_after_rate 0 [] (String.mk (List.replicate 1001 'a'))
    (by decide) (by norm_num [String.length])
  exact ⟨h.1.trans (by simp [pruneWindow]), h.2⟩

end Main
